import Mathlib

/-!
Shallow embedding of the Hnefatafl rules engine in src/src/game.rs
(hnefatafl-arena).  Pieces, players, positions, moves and the mutable
GameState are translated directly from the Rust source; the in-place
mutation of `make_move(&mut self) -> Result<(), GameError>` is modelled as
a function returning the `Result` together with the post-call state, so
that an error return with the input state unchanged is expressed as
`(Except.error e, s)`.

Renamings forced by Lean: the Rust field `Move.from` is called `src`
(`from` is a reserved word in Lean); everything else keeps its source name.
-/

/-- Board size constants (game.rs lines 5-8). -/
def COPENHAGEN_SIZE : Nat := 11

/-- Brandubh board edge length. -/
def BRANDUBH_SIZE : Nat := 7

/-- Capacity of the fixed-size board array. -/
def MAX_BOARD_SIZE : Nat := 11

/-- The supported rule sets (game.rs `enum Variant`). -/
inductive Variant where
  | Copenhagen
  | Brandubh
deriving DecidableEq, Repr

/-- `Variant::board_size` from game.rs. -/
def Variant.board_size : Variant → Nat
  | Variant.Copenhagen => COPENHAGEN_SIZE
  | Variant.Brandubh => BRANDUBH_SIZE

/-- The piece kinds (game.rs `enum Piece`). -/
inductive Piece where
  | Attacker
  | Defender
  | King
deriving DecidableEq, Repr

instance : Fintype Piece where
  elems := {Piece.Attacker, Piece.Defender, Piece.King}
  complete := by intro x; cases x <;> decide

/-- The two sides (game.rs `enum Player`). -/
inductive Player where
  | Attackers
  | Defenders
deriving DecidableEq, Repr

/-- `Player::opponent` from game.rs. -/
def Player.opponent : Player → Player
  | Player.Attackers => Player.Defenders
  | Player.Defenders => Player.Attackers

/-- A board coordinate pair (game.rs `struct Position`). -/
structure Position where
  row : Nat
  col : Nat
deriving DecidableEq, Repr

/-- A move, an ordered pair of positions (game.rs `struct Move`).
The Rust field `from` is renamed `src`, and `to` is renamed `dst` (both reserved words). -/
structure Move where
  src : Position
  dst : Position
deriving DecidableEq, Repr

/-- The error taxonomy (game.rs `enum GameError`); `InvalidMove` carries
the formatted message built by `make_move`. -/
inductive GameError where
  | InvalidMove (msg : String)
  | GameOver
  | NotYourTurn
deriving DecidableEq, Repr

/-- Terminal outcomes (game.rs `enum GameResult`). -/
inductive GameResult where
  | AttackersWin
  | DefendersWin
  | Draw
deriving DecidableEq, Repr

/-- The `Display` rendering of a position, "(row, col)" (game.rs). -/
def Position.display (p : Position) : String :=
  "(" ++ toString p.row ++ ", " ++ toString p.col ++ ")"

/-- The `Display` rendering of a move, "from -> to" (game.rs). -/
def Move.display (m : Move) : String :=
  m.src.display ++ " -> " ++ m.dst.display

/-- The message `make_move` formats into `GameError::InvalidMove`. -/
def invalid_move_msg (m : Move) : String :=
  "Move " ++ m.display ++ " is not legal"

/-- The game state (game.rs `struct GameState`).  The board is the
fixed-capacity `MAX_BOARD_SIZE × MAX_BOARD_SIZE` array of optional pieces,
modelled as a list of rows. -/
structure GameState where
  board : List (List (Option Piece))
  variant : Variant
  board_size : Nat
  current_player : Player
  king_position : Option Position
  move_count : Nat
  result : Option GameResult
deriving DecidableEq, Repr

/-- Read the raw board array at (r, c); out-of-range indices read as
empty, matching reads of never-written cells of the Rust array. -/
def boardGet (b : List (List (Option Piece))) (r c : Nat) : Option Piece :=
  (b.getD r []).getD c none

/-- Write the raw board array at (r, c) (`self.board[r][c] = v`). -/
def boardSet (b : List (List (Option Piece))) (r c : Nat) (v : Option Piece) :
    List (List (Option Piece)) :=
  b.set r ((b.getD r []).set c v)

/-- The all-empty `MAX_BOARD_SIZE × MAX_BOARD_SIZE` board
(`[[None; MAX_BOARD_SIZE]; MAX_BOARD_SIZE]`). -/
def empty_board : List (List (Option Piece)) :=
  List.replicate MAX_BOARD_SIZE (List.replicate MAX_BOARD_SIZE none)

/-- Place one piece kind on each cell of a coordinate list, in order
(the `for &(r, c) in &cells` placement loops of the setup functions). -/
def place_pieces (b : List (List (Option Piece))) (cells : List (Nat × Nat))
    (p : Piece) : List (List (Option Piece)) :=
  cells.foldl (fun acc rc => boardSet acc rc.1 rc.2 (some p)) b

/-- The Copenhagen defender cells from `setup_copenhagen` (center = 5). -/
def copenhagen_defenders : List (Nat × Nat) :=
  [(4, 5), (6, 5), (5, 4), (5, 6), (3, 5), (7, 5), (5, 3), (5, 7)]

/-- The Copenhagen attacker cells from `setup_copenhagen`. -/
def copenhagen_attackers : List (Nat × Nat) :=
  [(0, 3), (0, 4), (0, 5), (0, 6), (0, 7), (1, 5),
   (10, 3), (10, 4), (10, 5), (10, 6), (10, 7), (9, 5),
   (3, 0), (4, 0), (5, 0), (6, 0), (7, 0), (5, 1),
   (3, 10), (4, 10), (5, 10), (6, 10), (7, 10), (5, 9)]

/-- The Brandubh defender cells from `setup_brandubh` (center = 3). -/
def brandubh_defenders : List (Nat × Nat) :=
  [(2, 3), (4, 3), (3, 2), (3, 4)]

/-- The Brandubh attacker cells from `setup_brandubh`. -/
def brandubh_attackers : List (Nat × Nat) :=
  [(0, 3), (1, 3), (5, 3), (6, 3), (3, 0), (3, 1), (3, 5), (3, 6)]

/-- `GameState::setup_copenhagen` (game.rs lines 153-212). -/
def GameState.setup_copenhagen (s : GameState) : GameState :=
  let center := COPENHAGEN_SIZE / 2
  let b0 := boardSet s.board center center (some Piece.King)
  let b1 := place_pieces b0 copenhagen_defenders Piece.Defender
  let b2 := place_pieces b1 copenhagen_attackers Piece.Attacker
  { s with board := b2, king_position := some ⟨center, center⟩ }

/-- `GameState::setup_brandubh` (game.rs lines 215-254). -/
def GameState.setup_brandubh (s : GameState) : GameState :=
  let center := BRANDUBH_SIZE / 2
  let b0 := boardSet s.board center center (some Piece.King)
  let b1 := place_pieces b0 brandubh_defenders Piece.Defender
  let b2 := place_pieces b1 brandubh_attackers Piece.Attacker
  { s with board := b2, king_position := some ⟨center, center⟩ }

/-- `GameState::new` (game.rs lines 123-140). -/
def GameState.new (variant : Variant) : GameState :=
  let state : GameState :=
    { board := empty_board
      variant := variant
      board_size := variant.board_size
      current_player := Player.Attackers
      king_position := none
      move_count := 0
      result := none }
  match variant with
  | Variant.Copenhagen => state.setup_copenhagen
  | Variant.Brandubh => state.setup_brandubh

/-- `GameState::is_game_over` (`self.result.is_some()`). -/
def GameState.is_game_over (s : GameState) : Bool :=
  s.result.isSome

/-- `GameState::get_piece` (game.rs lines 280-286): in-bounds cells read
the grid, out-of-bounds positions read as no piece. -/
def GameState.get_piece (s : GameState) (pos : Position) : Option Piece :=
  if pos.row < s.board_size ∧ pos.col < s.board_size then
    boardGet s.board pos.row pos.col
  else
    none

/-- `GameState::is_corner` (game.rs lines 289-294). -/
def GameState.is_corner (s : GameState) (pos : Position) : Prop :=
  (pos.row = 0 ∧ pos.col = 0)
    ∨ (pos.row = 0 ∧ pos.col = s.board_size - 1)
    ∨ (pos.row = s.board_size - 1 ∧ pos.col = 0)
    ∨ (pos.row = s.board_size - 1 ∧ pos.col = s.board_size - 1)

instance (s : GameState) (pos : Position) : Decidable (s.is_corner pos) := by
  unfold GameState.is_corner; infer_instance

/-- `GameState::is_throne` (game.rs lines 297-300). -/
def GameState.is_throne (s : GameState) (pos : Position) : Prop :=
  pos.row = s.board_size / 2 ∧ pos.col = s.board_size / 2

instance (s : GameState) (pos : Position) : Decidable (s.is_throne pos) := by
  unfold GameState.is_throne; infer_instance

/-- `GameState::piece_belongs_to_current_player` (game.rs lines 324-330). -/
def GameState.piece_belongs_to_current_player (s : GameState) (piece : Piece) : Bool :=
  match piece, s.current_player with
  | Piece.Attacker, Player.Attackers => true
  | Piece.Defender, Player.Defenders => true
  | Piece.King, Player.Defenders => true
  | _, _ => false

/-- The four orthogonal direction offsets, in source order
(`[(0, 1), (0, -1), (1, 0), (-1, 0)]`). -/
def directions : List (Int × Int) :=
  [((0 : Int), (1 : Int)), (0, -1), (1, 0), (-1, 0)]

/-- One direction's ray of the sliding loop inside
`legal_moves_for_piece` (game.rs lines 339-367).  The Rust `loop` is
bounded only by the break conditions; `fuel` bounds the recursion, and
`board_size` steps always exhaust the board, so the two agree whenever
`fuel ≥ board_size` and the start cell is in bounds. -/
def GameState.slide (s : GameState) (src : Position) (piece : Piece)
    (dr dc : Int) : Nat → Int → Int → List Move
  | 0, _, _ => []
  | fuel + 1, r, c =>
    let r2 := r + dr
    let c2 := c + dc
    if r2 < 0 ∨ (s.board_size : Int) ≤ r2 ∨ c2 < 0 ∨ (s.board_size : Int) ≤ c2 then
      []
    else
      let dest : Position := ⟨r2.toNat, c2.toNat⟩
      if (s.get_piece dest).isSome then
        []
      else if piece ≠ Piece.King ∧ (s.is_throne dest ∨ s.is_corner dest) then
        []
      else
        ⟨src, dest⟩ :: s.slide src piece dr dc fuel r2 c2

/-- `GameState::legal_moves_for_piece` (game.rs lines 332-370).  The Rust
code unwraps the origin's occupant; an empty origin (unreachable from the
call site, which only passes occupied cells) yields no moves here. -/
def GameState.legal_moves_for_piece (s : GameState) (src : Position) : List Move :=
  match s.get_piece src with
  | none => []
  | some piece =>
    directions.flatMap fun d =>
      s.slide src piece d.1 d.2 s.board_size (src.row : Int) (src.col : Int)

/-- `GameState::legal_moves` (game.rs lines 303-322). -/
def GameState.legal_moves (s : GameState) : List Move :=
  if s.is_game_over then
    []
  else
    (List.range s.board_size).flatMap fun row =>
      (List.range s.board_size).flatMap fun col =>
        match s.get_piece ⟨row, col⟩ with
        | some piece =>
          if s.piece_belongs_to_current_player piece then
            s.legal_moves_for_piece ⟨row, col⟩
          else
            []
        | none => []

/-- `GameState::is_king_surrounded` (game.rs lines 489-517): every
orthogonal neighbor must be the throne, a corner or an Attacker;
off-board directions are skipped. -/
def GameState.is_king_surrounded (s : GameState) (king_pos : Position) : Bool :=
  directions.all fun d =>
    let r := (king_pos.row : Int) + d.1
    let c := (king_pos.col : Int) + d.2
    if r < 0 ∨ (s.board_size : Int) ≤ r ∨ c < 0 ∨ (s.board_size : Int) ≤ c then
      true
    else
      let pos : Position := ⟨r.toNat, c.toNat⟩
      if s.is_throne pos ∨ s.is_corner pos then
        true
      else
        match s.get_piece pos with
        | some piece => piece = Piece.Attacker
        | none => false

/-- `GameState::can_capture` (game.rs lines 437-487).  The Rust code
unwraps both occupants; an empty cell (unreachable from `check_captures`)
reads as no capture. -/
def GameState.can_capture (s : GameState) (attacker target : Position) : Bool :=
  match s.get_piece attacker, s.get_piece target with
  | some attacker_piece, some target_piece =>
    if (attacker_piece = Piece.Attacker ∧ target_piece = Piece.Attacker)
        ∨ (attacker_piece = Piece.Defender ∧ target_piece = Piece.Defender)
        ∨ (attacker_piece = Piece.King ∧ target_piece = Piece.Defender)
        ∨ (attacker_piece = Piece.Defender ∧ target_piece = Piece.King) then
      false
    else if target_piece = Piece.King then
      s.is_king_surrounded target
    else
      let dr := (target.row : Int) - (attacker.row : Int)
      let dc := (target.col : Int) - (attacker.col : Int)
      let opposite_r := (target.row : Int) + dr
      let opposite_c := (target.col : Int) + dc
      if opposite_r < 0 ∨ (s.board_size : Int) ≤ opposite_r
          ∨ opposite_c < 0 ∨ (s.board_size : Int) ≤ opposite_c then
        false
      else
        let opposite : Position := ⟨opposite_r.toNat, opposite_c.toNat⟩
        if s.is_throne opposite ∨ s.is_corner opposite then
          true
        else
          match s.get_piece opposite with
          | some opposite_piece =>
            match target_piece, opposite_piece with
            | Piece.Attacker, Piece.Defender => true
            | Piece.Attacker, Piece.King => true
            | Piece.Defender, Piece.Attacker => true
            | _, _ => false
          | none => false
  | _, _ => false

/-- One direction's body of the capture loop in `check_captures`
(game.rs lines 409-434). -/
def GameState.capture_step (s : GameState) (moved_to : Position) (d : Int × Int) :
    GameState :=
  let target_r := (moved_to.row : Int) + d.1
  let target_c := (moved_to.col : Int) + d.2
  if target_r < 0 ∨ (s.board_size : Int) ≤ target_r
      ∨ target_c < 0 ∨ (s.board_size : Int) ≤ target_c then
    s
  else
    let target : Position := ⟨target_r.toNat, target_c.toNat⟩
    match s.get_piece target with
    | none => s
    | some target_piece =>
      if s.can_capture moved_to target then
        { s with
            board := boardSet s.board target.row target.col none
            king_position :=
              if target_piece = Piece.King then none else s.king_position }
      else
        s

/-- `GameState::check_captures` (game.rs lines 406-435): the capture loop
over the four directions, each step reading the state left by the
previous one. -/
def GameState.check_captures (s : GameState) (moved_to : Position) : GameState :=
  directions.foldl (fun st d => st.capture_step moved_to d) s

/-- `GameState::check_game_end` (game.rs lines 519-534). -/
def GameState.check_game_end (s : GameState) : GameState :=
  match s.king_position with
  | some king_pos =>
    if s.is_corner king_pos then
      { s with result := some GameResult.DefendersWin }
    else
      s
  | none => { s with result := some GameResult.AttackersWin }

/-- The piece relocation and king-cache update of `make_move`
(game.rs lines 384-391). -/
def GameState.apply_move (s : GameState) (mv : Move) (piece : Piece) : GameState :=
  let b1 := boardSet s.board mv.src.row mv.src.col none
  let b2 := boardSet b1 mv.dst.row mv.dst.col (some piece)
  { s with
      board := b2
      king_position := if piece = Piece.King then some mv.dst else s.king_position }

/-- `GameState::make_move` (game.rs lines 373-404), returning the Rust
`Result<(), GameError>` together with the post-call state.  The Rust code
rejects on `!legal_moves().contains(&mv)` and otherwise proceeds; here the
two branches are written in the opposite order with identical meaning.
The `none` arm of the occupant match corresponds to the Rust `unwrap`,
unreachable because a legal move always starts from an occupied cell. -/
def GameState.make_move (s : GameState) (mv : Move) :
    Except GameError Unit × GameState :=
  if s.is_game_over then
    (Except.error GameError.GameOver, s)
  else if mv ∈ s.legal_moves then
    match boardGet s.board mv.src.row mv.src.col with
    | some piece =>
      let s2 := ((s.apply_move mv piece).check_captures mv.dst).check_game_end
      (Except.ok (),
        { s2 with
            current_player := s2.current_player.opponent
            move_count := s2.move_count + 1 })
    | none => (Except.error (GameError.InvalidMove (invalid_move_msg mv)), s)
  else
    (Except.error (GameError.InvalidMove (invalid_move_msg mv)), s)

/-- States reachable from a fresh game by arbitrary `make_move` calls
(rejected calls return the state unchanged, so including them loses
nothing). -/
inductive Reachable : GameState → Prop where
  | init (v : Variant) : Reachable (GameState.new v)
  | step (s : GameState) (mv : Move) :
      Reachable s → Reachable (s.make_move mv).2

/-- Results of make_move are compared for equality in several claims. -/
instance : DecidableEq (Except GameError Unit) := fun a b =>
  match a, b with
  | Except.ok u, Except.ok v =>
    match u, v with
    | (), () => isTrue rfl
  | Except.error e1, Except.error e2 =>
    if h : e1 = e2 then isTrue (by rw [h]) else isFalse (by simp [h])
  | Except.ok _, Except.error _ => isFalse (by simp)
  | Except.error _, Except.ok _ => isFalse (by simp)

/-- The conditions under which the sliding loop enters a cell instead of
breaking: in bounds, empty, and for non-King pieces neither throne nor
corner (the three break conditions of game.rs lines 347-363). -/
def okCell (s : GameState) (piece : Piece) (r c : Int) : Prop :=
  (0 ≤ r ∧ r < (s.board_size : Int) ∧ 0 ≤ c ∧ c < (s.board_size : Int)) ∧
  s.get_piece ⟨r.toNat, c.toNat⟩ = none ∧
  (piece ≠ Piece.King →
    ¬(s.is_throne ⟨r.toNat, c.toNat⟩ ∨ s.is_corner ⟨r.toNat, c.toNat⟩))

instance (s : GameState) (piece : Piece) (r c : Int) :
    Decidable (okCell s piece r c) := by
  unfold okCell; infer_instance

/-- A terminal state used to witness C3 concretely. -/
def terminal_demo : GameState :=
  { GameState.new Variant.Brandubh with result := some GameResult.Draw }

/-- The spec's piece-ownership rule (spec 4.2): Attacker pieces belong to
the Attackers side; Defender and King pieces both belong to the Defenders
side. -/
def piece_owner : Piece → Player
  | Piece.Attacker => Player.Attackers
  | Piece.Defender => Player.Defenders
  | Piece.King => Player.Defenders

/-- Spec-side description of the legal-move set (spec 4.2): for every
occupied cell owned by the side to move, slide outward in each of the four
orthogonal directions one cell at a time; every intermediate empty cell
along a ray is a legal destination, the ray stopping (exclusive) at the
first board edge, occupied cell, or (for non-King pieces only) throne or
corner; and the set is empty once the Result is set. -/
def LegalMoveSpec (s : GameState) (mv : Move) : Prop :=
  s.result = none ∧
  ∃ piece, s.get_piece mv.src = some piece ∧
    piece_owner piece = s.current_player ∧
    ∃ d ∈ directions, ∃ k ∈ List.range (s.board_size + 1), 1 ≤ k ∧
      mv.dst = ⟨((mv.src.row : Int) + (k : Int) * d.1).toNat,
                ((mv.src.col : Int) + (k : Int) * d.2).toNat⟩ ∧
      ∀ j ∈ List.range (k + 1), 1 ≤ j →
        okCell s piece ((mv.src.row : Int) + (j : Int) * d.1)
          ((mv.src.col : Int) + (j : Int) * d.2)

instance (s : GameState) (mv : Move) : Decidable (LegalMoveSpec s mv) := by
  unfold LegalMoveSpec; infer_instance

/-- A square hostile to the King in the spec's king-capture rule: the
throne, a corner, or a cell occupied by an Attacker. -/
def hostile_to_king (s : GameState) (p : Position) : Prop :=
  s.is_throne p ∨ s.is_corner p ∨ s.get_piece p = some Piece.Attacker

instance (s : GameState) (p : Position) : Decidable (hostile_to_king s p) := by
  unfold hostile_to_king; infer_instance

/-- The spec's piece-against-piece hostility for non-King targets:
an Attacker is hostile to Defender and King; Defender and King are
hostile to an Attacker. -/
def hostile_to : Piece → Piece → Prop
  | Piece.Attacker, po => po = Piece.Defender ∨ po = Piece.King
  | Piece.Defender, po => po = Piece.Attacker
  | Piece.King, _ => False

instance (pt po : Piece) : Decidable (hostile_to pt po) := by
  cases pt <;> (unfold hostile_to; infer_instance)

/-- Build a small Brandubh-sized test position for concrete scenarios. -/
def demo_state (cells : List (Nat × Nat × Piece)) (kp : Option Position)
    (cp : Player) : GameState :=
  { board := cells.foldl (fun b rc => boardSet b rc.1 rc.2.1 (some rc.2.2)) empty_board
    variant := Variant.Brandubh
    board_size := BRANDUBH_SIZE
    current_player := cp
    king_position := kp
    move_count := 0
    result := none }

/-- Attacker just landed on (0,4) next to the King on (0,3); the King's
on-board neighbors (0,2), (0,4), (1,3) all hold Attackers. -/
def cap1_demo : GameState :=
  demo_state
    [(0, 4, Piece.Attacker), (0, 3, Piece.King), (0, 2, Piece.Attacker),
     (1, 3, Piece.Attacker)]
    (some ⟨0, 3⟩) Player.Attackers

/-- Attacker on (2,2) next to a Defender on (2,3) with an Attacker on the
opposite cell (2,4). -/
def cap2_demo : GameState :=
  demo_state
    [(2, 2, Piece.Attacker), (2, 3, Piece.Defender), (2, 4, Piece.Attacker)]
    none Player.Attackers

/-- King on the top edge at (0,3) with Attackers on (0,2) and (1,3); the
Attacker on (2,4) can legally slide to (0,4) and close the three-sided
edge surround. -/
def edge_capture_demo : GameState :=
  demo_state
    [(0, 3, Piece.King), (0, 2, Piece.Attacker), (1, 3, Piece.Attacker),
     (2, 4, Piece.Attacker)]
    (some ⟨0, 3⟩) Player.Attackers

/-- Spec-side description of the per-variant starting layout table:
King at the geometric center, the variant's fixed Defender cells, the
variant's fixed Attacker cells, empty elsewhere, and nothing out of
bounds (the coordinate lists are the fixed layout tables of the setup
functions). -/
def initLayout (v : Variant) (r c : Nat) : Option Piece :=
  let size := v.board_size
  let center := size / 2
  if r < size ∧ c < size then
    if r = center ∧ c = center then
      some Piece.King
    else if (r, c) ∈ (match v with
        | Variant.Copenhagen => copenhagen_defenders
        | Variant.Brandubh => brandubh_defenders) then
      some Piece.Defender
    else if (r, c) ∈ (match v with
        | Variant.Copenhagen => copenhagen_attackers
        | Variant.Brandubh => brandubh_attackers) then
      some Piece.Attacker
    else
      none
  else
    none

/-- The board list is a full MAX_BOARD_SIZE times MAX_BOARD_SIZE grid,
as allocated by the Rust fixed-size array. -/
def BoardShape (b : List (List (Option Piece))) : Prop :=
  b.length = MAX_BOARD_SIZE ∧ ∀ row ∈ b, row.length = MAX_BOARD_SIZE

instance (b : List (List (Option Piece))) : Decidable (BoardShape b) := by
  unfold BoardShape; infer_instance

/-- The cached king position, when set, is in bounds. -/
def kingPosInBounds (s : GameState) : Prop :=
  match s.king_position with
  | some kp => kp.row < s.board_size ∧ kp.col < s.board_size
  | none => True

instance (s : GameState) : Decidable (kingPosInBounds s) :=
  match h : s.king_position with
  | some kp =>
    decidable_of_iff (kp.row < s.board_size ∧ kp.col < s.board_size)
      (by unfold kingPosInBounds; rw [h])
  | none => decidable_of_iff True (by unfold kingPosInBounds; rw [h])

/-- King-cache coherence (spec section 3): an in-bounds grid cell holds
the King exactly when the cached king position points at it, and the
cache, when set, is in bounds.  This gives: at most one King cell, and
the cache is set iff exactly one King cell exists, pointing at it. -/
def KingCoherent (s : GameState) : Prop :=
  (∀ r, r < s.board_size → ∀ c, c < s.board_size →
    (boardGet s.board r c = some Piece.King ↔ s.king_position = some ⟨r, c⟩)) ∧
  kingPosInBounds s

instance (s : GameState) : Decidable (KingCoherent s) := by
  unfold KingCoherent
  infer_instance

/-- The full preserved invariant: a well-shaped board, an edge length
within capacity, and king-cache coherence. -/
def StateInv (s : GameState) : Prop :=
  BoardShape s.board ∧ s.board_size ≤ MAX_BOARD_SIZE ∧ KingCoherent s

instance (s : GameState) : Decidable (StateInv s) := by
  unfold StateInv; infer_instance

/-! ### Basic list and board lemmas -/

theorem getD_set_eq {α : Type} (l : List α) (i : Nat) (a d : α) :
    (l.set i a).getD i d = if i < l.length then a else d := by
  induction l generalizing i with
  | nil => simp [List.set]
  | cons x xs ih =>
    cases i with
    | zero => simp
    | succ j => simpa using ih j

theorem getD_set_ne {α : Type} (l : List α) (i j : Nat) (a d : α) (h : i ≠ j) :
    (l.set i a).getD j d = l.getD j d := by
  induction l generalizing i j with
  | nil => simp [List.set]
  | cons x xs ih =>
    cases i with
    | zero =>
      cases j with
      | zero => exact absurd rfl h
      | succ j2 => simp
    | succ i2 =>
      cases j with
      | zero => simp
      | succ j2 => simpa using ih i2 j2 (by omega)

theorem getD_of_le {α : Type} (l : List α) (i : Nat) (d : α) (h : l.length ≤ i) :
    l.getD i d = d := by
  induction l generalizing i with
  | nil => simp
  | cons x xs ih =>
    cases i with
    | zero => simp at h
    | succ j => simpa using ih j (by simpa using h)

theorem boardGet_boardSet_self (b : List (List (Option Piece))) (r c : Nat)
    (v : Option Piece) (hr : r < b.length) (hc : c < (b.getD r []).length) :
    boardGet (boardSet b r c v) r c = v := by
  unfold boardGet boardSet
  rw [getD_set_eq, if_pos hr, getD_set_eq, if_pos hc]

theorem boardGet_boardSet_none (b : List (List (Option Piece))) (r c : Nat) :
    boardGet (boardSet b r c none) r c = none := by
  unfold boardGet boardSet
  rw [getD_set_eq]
  by_cases hr : r < b.length
  · rw [if_pos hr, getD_set_eq]
    by_cases hc : c < (b.getD r []).length
    · rw [if_pos hc]
    · rw [if_neg hc]
  · rw [if_neg hr]
    simp

theorem boardGet_boardSet_ne (b : List (List (Option Piece))) (r c : Nat)
    (v : Option Piece) (r2 c2 : Nat) (h : r ≠ r2 ∨ c ≠ c2) :
    boardGet (boardSet b r c v) r2 c2 = boardGet b r2 c2 := by
  unfold boardGet boardSet
  by_cases hr : r = r2
  · subst hr
    have hc : c ≠ c2 := by tauto
    rw [getD_set_eq]
    by_cases hlen : r < b.length
    · rw [if_pos hlen, getD_set_ne _ _ _ _ _ hc]
    · rw [if_neg hlen]
      rw [getD_of_le b r [] (by omega)]
  · rw [getD_set_ne _ _ _ _ _ hr]

theorem length_boardSet (b : List (List (Option Piece))) (r c : Nat)
    (v : Option Piece) : (boardSet b r c v).length = b.length := by
  unfold boardSet; simp

theorem get_piece_of_bounds (s : GameState) (pos : Position)
    (hr : pos.row < s.board_size) (hc : pos.col < s.board_size) :
    s.get_piece pos = boardGet s.board pos.row pos.col := by
  unfold GameState.get_piece
  rw [if_pos ⟨hr, hc⟩]

theorem get_piece_some_bounds (s : GameState) (pos : Position) (p : Piece)
    (h : s.get_piece pos = some p) :
    pos.row < s.board_size ∧ pos.col < s.board_size := by
  unfold GameState.get_piece at h
  by_cases hb : pos.row < s.board_size ∧ pos.col < s.board_size
  · exact hb
  · rw [if_neg hb] at h
    exact absurd h (by simp)

/-! ### Field-preservation lemmas for the make_move pipeline -/

theorem apply_move_fields (s : GameState) (mv : Move) (piece : Piece) :
    (s.apply_move mv piece).current_player = s.current_player ∧
    (s.apply_move mv piece).move_count = s.move_count ∧
    (s.apply_move mv piece).result = s.result ∧
    (s.apply_move mv piece).board_size = s.board_size ∧
    (s.apply_move mv piece).variant = s.variant :=
  ⟨rfl, rfl, rfl, rfl, rfl⟩

theorem capture_step_fields (s : GameState) (p : Position) (d : Int × Int) :
    (s.capture_step p d).current_player = s.current_player ∧
    (s.capture_step p d).move_count = s.move_count ∧
    (s.capture_step p d).result = s.result ∧
    (s.capture_step p d).board_size = s.board_size ∧
    (s.capture_step p d).variant = s.variant := by
  refine ⟨?_, ?_, ?_, ?_, ?_⟩ <;>
    (unfold GameState.capture_step
     dsimp only
     split
     · rfl
     · split
       · rfl
       · split <;> rfl)

theorem foldl_capture_fields (p : Position) (l : List (Int × Int)) :
    ∀ st : GameState,
      (l.foldl (fun st d => st.capture_step p d) st).current_player = st.current_player ∧
      (l.foldl (fun st d => st.capture_step p d) st).move_count = st.move_count ∧
      (l.foldl (fun st d => st.capture_step p d) st).result = st.result ∧
      (l.foldl (fun st d => st.capture_step p d) st).board_size = st.board_size ∧
      (l.foldl (fun st d => st.capture_step p d) st).variant = st.variant := by
  induction l with
  | nil => intro st; exact ⟨rfl, rfl, rfl, rfl, rfl⟩
  | cons d l ih =>
    intro st
    have h1 := capture_step_fields st p d
    have h2 := ih (st.capture_step p d)
    simp only [List.foldl_cons]
    exact ⟨h2.1.trans h1.1, h2.2.1.trans h1.2.1, h2.2.2.1.trans h1.2.2.1,
      h2.2.2.2.1.trans h1.2.2.2.1, h2.2.2.2.2.trans h1.2.2.2.2⟩

theorem check_captures_fields (s : GameState) (p : Position) :
    (s.check_captures p).current_player = s.current_player ∧
    (s.check_captures p).move_count = s.move_count ∧
    (s.check_captures p).result = s.result ∧
    (s.check_captures p).board_size = s.board_size ∧
    (s.check_captures p).variant = s.variant :=
  foldl_capture_fields p directions s

theorem check_game_end_fields (s : GameState) :
    (s.check_game_end).board = s.board ∧
    (s.check_game_end).king_position = s.king_position ∧
    (s.check_game_end).current_player = s.current_player ∧
    (s.check_game_end).move_count = s.move_count ∧
    (s.check_game_end).board_size = s.board_size ∧
    (s.check_game_end).variant = s.variant := by
  unfold GameState.check_game_end
  split
  · split
    · exact ⟨rfl, rfl, rfl, rfl, rfl, rfl⟩
    · exact ⟨rfl, rfl, rfl, rfl, rfl, rfl⟩
  · exact ⟨rfl, rfl, rfl, rfl, rfl, rfl⟩

theorem check_game_end_result (s : GameState) :
    (s.check_game_end).result =
      match s.king_position with
      | none => some GameResult.AttackersWin
      | some king_pos =>
        if s.is_corner king_pos then some GameResult.DefendersWin else s.result := by
  rcases hkp : s.king_position with _ | kp
  · unfold GameState.check_game_end
    rw [hkp]
  · unfold GameState.check_game_end
    rw [hkp]
    by_cases hc : s.is_corner kp
    · simp [hc]
    · simp [hc]

/-! ### Branch equations for make_move -/

theorem make_move_of_game_over (s : GameState) (mv : Move)
    (h : s.is_game_over = true) :
    s.make_move mv = (Except.error GameError.GameOver, s) := by
  unfold GameState.make_move
  rw [if_pos h]

theorem make_move_of_not_mem (s : GameState) (mv : Move)
    (h1 : s.is_game_over = false) (h2 : mv ∉ s.legal_moves) :
    s.make_move mv = (Except.error (GameError.InvalidMove (invalid_move_msg mv)), s) := by
  unfold GameState.make_move
  rw [if_neg (by simp [h1]), if_neg h2]

theorem make_move_of_legal (s : GameState) (mv : Move) (piece : Piece)
    (h1 : s.is_game_over = false) (h2 : mv ∈ s.legal_moves)
    (h3 : boardGet s.board mv.src.row mv.src.col = some piece) :
    s.make_move mv =
      (Except.ok (),
        let s2 := ((s.apply_move mv piece).check_captures mv.dst).check_game_end
        { s2 with
            current_player := s2.current_player.opponent
            move_count := s2.move_count + 1 }) := by
  unfold GameState.make_move
  rw [if_neg (by simp [h1]), if_pos h2, h3]

/-! ### Characterization of the sliding-move generator -/

theorem slide_mem (s : GameState) (src : Position) (piece : Piece) (dr dc : Int) :
    ∀ (fuel : Nat) (r c : Int) (mv : Move),
      mv ∈ s.slide src piece dr dc fuel r c ↔
        ∃ k : Nat, 1 ≤ k ∧ k ≤ fuel ∧
          mv = ⟨src, ⟨(r + (k : Int) * dr).toNat, (c + (k : Int) * dc).toNat⟩⟩ ∧
          ∀ j : Nat, 1 ≤ j → j ≤ k →
            okCell s piece (r + (j : Int) * dr) (c + (j : Int) * dc) := by
  intro fuel
  induction fuel with
  | zero =>
    intro r c mv
    constructor
    · intro h
      exact absurd h (by simp [GameState.slide])
    · rintro ⟨k, hk1, hk0, _, _⟩
      omega
  | succ fuel ih =>
    intro r c mv
    rw [GameState.slide]
    dsimp only
    by_cases hB : r + dr < 0 ∨ (s.board_size : Int) ≤ r + dr
        ∨ c + dc < 0 ∨ (s.board_size : Int) ≤ c + dc
    · rw [if_pos hB]
      constructor
      · intro h
        exact absurd h (List.not_mem_nil mv)
      · rintro ⟨k, hk1, hkf, hmv, hall⟩
        rcases hall 1 le_rfl hk1 with ⟨⟨ha, hb, hc2, hd⟩, _, _⟩
        simp only [Nat.cast_one, one_mul] at ha hb hc2 hd
        omega
    · rw [if_neg hB]
      by_cases hOcc : (s.get_piece ⟨(r + dr).toNat, (c + dc).toNat⟩).isSome = true
      · rw [if_pos hOcc]
        constructor
        · intro h
          exact absurd h (List.not_mem_nil mv)
        · rintro ⟨k, hk1, hkf, hmv, hall⟩
          rcases hall 1 le_rfl hk1 with ⟨_, hemp, _⟩
          simp only [Nat.cast_one, one_mul] at hemp
          rw [hemp] at hOcc
          simp at hOcc
      · rw [if_neg hOcc]
        by_cases hBlk : piece ≠ Piece.King
            ∧ (s.is_throne ⟨(r + dr).toNat, (c + dc).toNat⟩
                ∨ s.is_corner ⟨(r + dr).toNat, (c + dc).toNat⟩)
        · rw [if_pos hBlk]
          constructor
          · intro h
            exact absurd h (List.not_mem_nil mv)
          · rintro ⟨k, hk1, hkf, hmv, hall⟩
            rcases hall 1 le_rfl hk1 with ⟨_, _, hok⟩
            simp only [Nat.cast_one, one_mul] at hok
            exact absurd hBlk.2 (hok hBlk.1)
        · rw [if_neg hBlk]
          have hstep1 : okCell s piece (r + dr) (c + dc) := by
            refine ⟨⟨by omega, by omega, by omega, by omega⟩, ?_, ?_⟩
            · rcases h : s.get_piece ⟨(r + dr).toNat, (c + dc).toNat⟩ with _ | p
              · rfl
              · rw [h] at hOcc
                simp at hOcc
            · intro hpk hcontra
              exact hBlk ⟨hpk, hcontra⟩
          rw [List.mem_cons]
          constructor
          · rintro (rfl | hmem)
            · refine ⟨1, le_rfl, by omega, ?_, ?_⟩
              · simp [one_mul]
              · intro j hj1 hj2
                have hj : j = 1 := by omega
                subst hj
                simpa [one_mul] using hstep1
            · rcases (ih (r + dr) (c + dc) mv).mp hmem with ⟨k, hk1, hkf, hmv, hall⟩
              refine ⟨k + 1, by omega, by omega, ?_, ?_⟩
              · have e1 : r + ((k + 1 : Nat) : Int) * dr = (r + dr) + (k : Int) * dr := by
                  push_cast
                  ring
                have e2 : c + ((k + 1 : Nat) : Int) * dc = (c + dc) + (k : Int) * dc := by
                  push_cast
                  ring
                rw [e1, e2]
                exact hmv
              · intro j hj1 hjk1
                by_cases hj : j = 1
                · subst hj
                  simpa [one_mul] using hstep1
                · have ecast : ((j - 1 : Nat) : Int) = (j : Int) - 1 := by omega
                  have e1 : r + (j : Int) * dr = (r + dr) + ((j - 1 : Nat) : Int) * dr := by
                    rw [ecast]
                    ring
                  have e2 : c + (j : Int) * dc = (c + dc) + ((j - 1 : Nat) : Int) * dc := by
                    rw [ecast]
                    ring
                  rw [e1, e2]
                  exact hall (j - 1) (by omega) (by omega)
          · rintro ⟨k, hk1, hkf, hmv, hall⟩
            by_cases hk : k = 1
            · subst hk
              left
              rw [hmv]
              simp [one_mul]
            · right
              apply (ih (r + dr) (c + dc) mv).mpr
              refine ⟨k - 1, by omega, by omega, ?_, ?_⟩
              · have ecast : ((k - 1 : Nat) : Int) = (k : Int) - 1 := by omega
                have e1 : (r + dr) + ((k - 1 : Nat) : Int) * dr = r + (k : Int) * dr := by
                  rw [ecast]
                  ring
                have e2 : (c + dc) + ((k - 1 : Nat) : Int) * dc = c + (k : Int) * dc := by
                  rw [ecast]
                  ring
                rw [e1, e2]
                exact hmv
              · intro j hj1 hjk
                have ecast : ((j + 1 : Nat) : Int) = (j : Int) + 1 := by omega
                have e1 : (r + dr) + (j : Int) * dr = r + ((j + 1 : Nat) : Int) * dr := by
                  rw [ecast]
                  ring
                have e2 : (c + dc) + (j : Int) * dc = c + ((j + 1 : Nat) : Int) * dc := by
                  rw [ecast]
                  ring
                rw [e1, e2]
                exact hall (j + 1) (by omega) (by omega)

theorem mem_legal_moves_for_piece (s : GameState) (src : Position) (piece : Piece)
    (h : s.get_piece src = some piece) (mv : Move) :
    mv ∈ s.legal_moves_for_piece src ↔
      ∃ d ∈ directions, ∃ k : Nat, 1 ≤ k ∧ k ≤ s.board_size ∧
        mv = ⟨src, ⟨((src.row : Int) + (k : Int) * d.1).toNat,
                    ((src.col : Int) + (k : Int) * d.2).toNat⟩⟩ ∧
        ∀ j : Nat, 1 ≤ j → j ≤ k →
          okCell s piece ((src.row : Int) + (j : Int) * d.1)
            ((src.col : Int) + (j : Int) * d.2) := by
  unfold GameState.legal_moves_for_piece
  rw [h]
  simp only [List.mem_flatMap, slide_mem]

theorem src_of_mem_legal_moves_for_piece (s : GameState) (src : Position) (mv : Move)
    (h : mv ∈ s.legal_moves_for_piece src) : mv.src = src := by
  unfold GameState.legal_moves_for_piece at h
  rcases hget : s.get_piece src with _ | p
  · rw [hget] at h
    simp at h
  · rw [hget] at h
    simp only [List.mem_flatMap, slide_mem] at h
    rcases h with ⟨d, _, k, _, _, hmv, _⟩
    rw [hmv]

theorem mem_legal_moves (s : GameState) (mv : Move) :
    mv ∈ s.legal_moves ↔
      s.is_game_over = false ∧
      ∃ piece, s.get_piece mv.src = some piece ∧
        s.piece_belongs_to_current_player piece = true ∧
        mv ∈ s.legal_moves_for_piece mv.src := by
  unfold GameState.legal_moves
  by_cases hov : s.is_game_over = true
  · rw [if_pos hov]
    simp [hov]
  · rw [if_neg hov]
    rw [Bool.not_eq_true] at hov
    simp only [hov, true_and]
    rw [List.mem_flatMap]
    constructor
    · rintro ⟨row, hrow, h⟩
      rw [List.mem_flatMap] at h
      rcases h with ⟨col, hcol, hbody⟩
      rcases hget : s.get_piece ⟨row, col⟩ with _ | p
      · rw [hget] at hbody
        simp at hbody
      · rw [hget] at hbody
        by_cases hbel : s.piece_belongs_to_current_player p = true
        · simp only [hbel, if_true] at hbody
          have hsrc : mv.src = ⟨row, col⟩ :=
            src_of_mem_legal_moves_for_piece s ⟨row, col⟩ mv hbody
          refine ⟨p, ?_, hbel, ?_⟩
          · rw [hsrc]
            exact hget
          · rw [hsrc]
            exact hbody
        · simp [hbel] at hbody
    · rintro ⟨p, hget, hbel, hmem⟩
      rcases get_piece_some_bounds s mv.src p hget with ⟨hr, hc⟩
      refine ⟨mv.src.row, List.mem_range.mpr hr, ?_⟩
      rw [List.mem_flatMap]
      refine ⟨mv.src.col, List.mem_range.mpr hc, ?_⟩
      have hpos : (⟨mv.src.row, mv.src.col⟩ : Position) = mv.src := rfl
      rw [hpos, hget]
      simp only [hbel, if_true]
      exact hmem

theorem result_none_of_not_over (s : GameState) (h : s.is_game_over = false) :
    s.result = none := by
  unfold GameState.is_game_over at h
  rcases hr : s.result with _ | r
  · rfl
  · rw [hr] at h
    simp at h

theorem legal_move_facts (s : GameState) (mv : Move) (h : mv ∈ s.legal_moves) :
    s.result = none ∧
    mv.src.row < s.board_size ∧ mv.src.col < s.board_size ∧
    mv.dst.row < s.board_size ∧ mv.dst.col < s.board_size ∧
    s.get_piece mv.dst = none ∧
    ∃ piece, s.get_piece mv.src = some piece ∧
      s.piece_belongs_to_current_player piece = true := by
  rcases (mem_legal_moves s mv).mp h with ⟨hov, p, hget, hbel, hmem⟩
  rcases get_piece_some_bounds s mv.src p hget with ⟨hsr, hsc⟩
  rcases (mem_legal_moves_for_piece s mv.src p hget mv).mp hmem with
    ⟨d, hd, k, hk1, hkn, hmv, hall⟩
  rcases hall k hk1 le_rfl with ⟨⟨hb1, hb2, hb3, hb4⟩, hemp, _⟩
  have hdst : mv.dst =
      ⟨((mv.src.row : Int) + (k : Int) * d.1).toNat,
       ((mv.src.col : Int) + (k : Int) * d.2).toNat⟩ := by
    rw [hmv]
  refine ⟨result_none_of_not_over s hov, hsr, hsc, ?_, ?_, ?_, p, hget, hbel⟩
  · rw [hdst]
    dsimp only
    omega
  · rw [hdst]
    dsimp only
    omega
  · rw [hdst]
    exact hemp

theorem make_move_of_legal_none (s : GameState) (mv : Move)
    (h1 : s.is_game_over = false) (h2 : mv ∈ s.legal_moves)
    (h3 : boardGet s.board mv.src.row mv.src.col = none) :
    s.make_move mv = (Except.error (GameError.InvalidMove (invalid_move_msg mv)), s) := by
  unfold GameState.make_move
  rw [if_neg (by simp [h1]), if_pos h2, h3]

/-! ### Claim theorems: error handling (C3, C4) and alternation (C7) -/

/-- C3: once the Result is set, make_move applied to any Move returns the
GameOver error and leaves the entire GameState unchanged (the returned
state is the input state). -/
theorem c3_terminal_absorbing (s : GameState) (mv : Move)
    (h : s.result.isSome = true) :
    s.make_move mv = (Except.error GameError.GameOver, s) :=
  make_move_of_game_over s mv h

theorem c3_terminal_absorbing_witness :
    terminal_demo.result.isSome = true ∧
    terminal_demo.make_move ⟨⟨0, 3⟩, ⟨0, 2⟩⟩ =
      (Except.error GameError.GameOver, terminal_demo) :=
  ⟨by decide, c3_terminal_absorbing terminal_demo ⟨⟨0, 3⟩, ⟨0, 2⟩⟩ (by decide)⟩

/-- C4: in an in-progress state, any Move outside legal_moves() is
rejected with the InvalidMove error and the GameState is unchanged (the
returned state is the input state). -/
theorem c4_invalid_move_rejected (s : GameState) (mv : Move)
    (h1 : s.result = none) (h2 : mv ∉ s.legal_moves) :
    s.make_move mv =
      (Except.error (GameError.InvalidMove (invalid_move_msg mv)), s) := by
  refine make_move_of_not_mem s mv ?_ h2
  unfold GameState.is_game_over
  rw [h1]
  rfl

theorem c4_invalid_move_rejected_witness :
    (GameState.new Variant.Brandubh).result = none ∧
    ⟨⟨0, 0⟩, ⟨0, 1⟩⟩ ∉ (GameState.new Variant.Brandubh).legal_moves ∧
    (GameState.new Variant.Brandubh).make_move ⟨⟨0, 0⟩, ⟨0, 1⟩⟩ =
      (Except.error (GameError.InvalidMove (invalid_move_msg ⟨⟨0, 0⟩, ⟨0, 1⟩⟩)),
        GameState.new Variant.Brandubh) :=
  ⟨by decide, by decide,
    c4_invalid_move_rejected (GameState.new Variant.Brandubh) ⟨⟨0, 0⟩, ⟨0, 1⟩⟩
      (by decide) (by decide)⟩

/-- C7: every accepted make_move flips the side to move exactly once and
increments the move counter by exactly one; every rejected make_move
leaves the state (hence side and counter) unchanged. -/
theorem c7_alternation (s : GameState) (mv : Move) :
    ((s.make_move mv).1 = Except.ok () →
      (s.make_move mv).2.current_player = s.current_player.opponent ∧
      (s.make_move mv).2.move_count = s.move_count + 1) ∧
    (∀ e : GameError, (s.make_move mv).1 = Except.error e → (s.make_move mv).2 = s) := by
  by_cases hov : s.is_game_over = true
  · rw [make_move_of_game_over s mv hov]
    exact ⟨fun h => absurd h (by simp), fun e _ => rfl⟩
  · rw [Bool.not_eq_true] at hov
    by_cases hmem : mv ∈ s.legal_moves
    · rcases hbg : boardGet s.board mv.src.row mv.src.col with _ | piece
      · rw [make_move_of_legal_none s mv hov hmem hbg]
        exact ⟨fun h => absurd h (by simp), fun e _ => rfl⟩
      · rw [make_move_of_legal s mv piece hov hmem hbg]
        refine ⟨fun _ => ⟨?_, ?_⟩, fun e h => absurd h (by simp)⟩
        · dsimp only
          rw [(check_game_end_fields _).2.2.1,
            (check_captures_fields _ _).1, (apply_move_fields s mv piece).1]
        · dsimp only
          rw [(check_game_end_fields _).2.2.2.1,
            (check_captures_fields _ _).2.1, (apply_move_fields s mv piece).2.1]
    · rw [make_move_of_not_mem s mv hov hmem]
      exact ⟨fun h => absurd h (by simp), fun e _ => rfl⟩

theorem c7_alternation_witness :
    ((GameState.new Variant.Brandubh).make_move ⟨⟨0, 3⟩, ⟨0, 2⟩⟩).2.current_player =
      (GameState.new Variant.Brandubh).current_player.opponent ∧
    ((GameState.new Variant.Brandubh).make_move ⟨⟨0, 3⟩, ⟨0, 2⟩⟩).2.move_count =
      (GameState.new Variant.Brandubh).move_count + 1 :=
  (c7_alternation (GameState.new Variant.Brandubh) ⟨⟨0, 3⟩, ⟨0, 2⟩⟩).1 (by decide)

/-! ### Claim theorem: the legal-move set (C5) -/

theorem belongs_iff_owner (s : GameState) (p : Piece) :
    s.piece_belongs_to_current_player p = true ↔ piece_owner p = s.current_player := by
  cases p <;> cases h : s.current_player <;>
    simp [GameState.piece_belongs_to_current_player, piece_owner, h]

/-- C5: legal_moves() returns exactly the rook-like sliding moves of the
side to move described by the spec (every empty ray cell up to the first
edge, occupied cell, or non-King-forbidden throne/corner), and returns the
empty list whenever the Result is set.  As a pure function of the state it
is deterministic by construction. -/
theorem c5_legal_moves_exact :
    (∀ (s : GameState) (mv : Move), mv ∈ s.legal_moves ↔ LegalMoveSpec s mv) ∧
    (∀ s : GameState, s.result.isSome = true → s.legal_moves = []) := by
  constructor
  · intro s mv
    rw [mem_legal_moves]
    unfold LegalMoveSpec
    constructor
    · rintro ⟨hov, p, hget, hbel, hmem⟩
      refine ⟨result_none_of_not_over s hov, p, hget,
        (belongs_iff_owner s p).mp hbel, ?_⟩
      rcases (mem_legal_moves_for_piece s mv.src p hget mv).mp hmem with
        ⟨d, hd, k, hk1, hkn, hmv, hall⟩
      refine ⟨d, hd, k, List.mem_range.mpr (by omega), hk1, ?_, ?_⟩
      · rw [hmv]
      · intro j hjr hj1
        exact hall j hj1 (by have := List.mem_range.mp hjr; omega)
    · rintro ⟨hres, p, hget, hown, d, hd, k, hkr, hk1, hdst, hall⟩
      refine ⟨?_, p, hget, (belongs_iff_owner s p).mpr hown, ?_⟩
      · unfold GameState.is_game_over
        rw [hres]
        rfl
      · rw [mem_legal_moves_for_piece s mv.src p hget]
        refine ⟨d, hd, k, hk1, by have := List.mem_range.mp hkr; omega, ?_, ?_⟩
        · rw [← hdst]
        · intro j hj1 hjk
          exact hall j (List.mem_range.mpr (by omega)) hj1
  · intro s h
    unfold GameState.legal_moves
    rw [if_pos (show s.is_game_over = true from h)]

theorem c5_legal_moves_exact_witness :
    LegalMoveSpec (GameState.new Variant.Brandubh) ⟨⟨0, 3⟩, ⟨0, 2⟩⟩ :=
  (c5_legal_moves_exact.1 (GameState.new Variant.Brandubh) ⟨⟨0, 3⟩, ⟨0, 2⟩⟩).mp
    (by decide)

/-! ### Claim theorem: win evaluation (C6) -/

/-- C6: every accepted move succeeds and its Result is computed from the
post-capture state, before the side flips: AttackersWin when the King
cache was cleared by this move's captures, otherwise DefendersWin when the
King's current position is a corner, otherwise no Result is set. -/
theorem c6_win_evaluation (s : GameState) (mv : Move) (piece : Piece)
    (h1 : s.result = none) (h2 : mv ∈ s.legal_moves)
    (h3 : boardGet s.board mv.src.row mv.src.col = some piece) :
    (s.make_move mv).1 = Except.ok () ∧
    (s.make_move mv).2.result =
      (match ((s.apply_move mv piece).check_captures mv.dst).king_position with
       | none => some GameResult.AttackersWin
       | some kp =>
         if ((s.apply_move mv piece).check_captures mv.dst).is_corner kp then
           some GameResult.DefendersWin
         else
           none) := by
  have hov : s.is_game_over = false := by
    unfold GameState.is_game_over
    rw [h1]
    rfl
  rw [make_move_of_legal s mv piece hov h2 h3]
  refine ⟨rfl, ?_⟩
  dsimp only
  rw [check_game_end_result]
  rw [(check_captures_fields _ _).2.2.1, (apply_move_fields s mv piece).2.2.1, h1]

theorem c6_win_evaluation_witness :
    ((GameState.new Variant.Brandubh).make_move ⟨⟨0, 3⟩, ⟨0, 2⟩⟩).1 = Except.ok () ∧
    ((GameState.new Variant.Brandubh).make_move ⟨⟨0, 3⟩, ⟨0, 2⟩⟩).2.result =
      (match (((GameState.new Variant.Brandubh).apply_move ⟨⟨0, 3⟩, ⟨0, 2⟩⟩
            Piece.Attacker).check_captures ⟨0, 2⟩).king_position with
       | none => some GameResult.AttackersWin
       | some kp =>
         if (((GameState.new Variant.Brandubh).apply_move ⟨⟨0, 3⟩, ⟨0, 2⟩⟩
              Piece.Attacker).check_captures ⟨0, 2⟩).is_corner kp then
           some GameResult.DefendersWin
         else
           none) :=
  c6_win_evaluation (GameState.new Variant.Brandubh) ⟨⟨0, 3⟩, ⟨0, 2⟩⟩ Piece.Attacker
    (by decide) (by decide) (by decide)

/-! ### The king-surround test -/

theorem is_king_surrounded_iff (s : GameState) (kp : Position) :
    s.is_king_surrounded kp = true ↔
      ∀ d ∈ directions,
        0 ≤ (kp.row : Int) + d.1 → (kp.row : Int) + d.1 < (s.board_size : Int) →
        0 ≤ (kp.col : Int) + d.2 → (kp.col : Int) + d.2 < (s.board_size : Int) →
        hostile_to_king s
          ⟨((kp.row : Int) + d.1).toNat, ((kp.col : Int) + d.2).toNat⟩ := by
  unfold GameState.is_king_surrounded
  rw [List.all_eq_true]
  constructor
  · intro h d hd h1 h2 h3 h4
    have hb := h d hd
    dsimp only at hb
    rw [if_neg (by omega)] at hb
    by_cases hsp : s.is_throne ⟨((kp.row : Int) + d.1).toNat, ((kp.col : Int) + d.2).toNat⟩
        ∨ s.is_corner ⟨((kp.row : Int) + d.1).toNat, ((kp.col : Int) + d.2).toNat⟩
    · rcases hsp with hsp | hsp
      · exact Or.inl hsp
      · exact Or.inr (Or.inl hsp)
    · rw [if_neg hsp] at hb
      rcases hget : s.get_piece
          ⟨((kp.row : Int) + d.1).toNat, ((kp.col : Int) + d.2).toNat⟩ with _ | p
      · rw [hget] at hb
        simp at hb
      · rw [hget] at hb
        have hp : p = Piece.Attacker := by
          simpa using hb
        refine Or.inr (Or.inr ?_)
        rw [hget, hp]
  · intro h d hd
    dsimp only
    by_cases hB : (kp.row : Int) + d.1 < 0 ∨ (s.board_size : Int) ≤ (kp.row : Int) + d.1
        ∨ (kp.col : Int) + d.2 < 0 ∨ (s.board_size : Int) ≤ (kp.col : Int) + d.2
    · rw [if_pos hB]
    · rw [if_neg hB]
      by_cases hsp : s.is_throne ⟨((kp.row : Int) + d.1).toNat, ((kp.col : Int) + d.2).toNat⟩
          ∨ s.is_corner ⟨((kp.row : Int) + d.1).toNat, ((kp.col : Int) + d.2).toNat⟩
      · rw [if_pos hsp]
      · rw [if_neg hsp]
        have hh := h d hd (by omega) (by omega) (by omega) (by omega)
        unfold hostile_to_king at hh
        rcases hh with hh | hh | hh
        · exact absurd (Or.inl hh) hsp
        · exact absurd (Or.inr hh) hsp
        · rw [hh]
          simp

/-! ### Claim theorem: king capture (C1) -/

/-- C1: when a move lands on a square `dst` orthogonally adjacent to the
King, the capture step for that direction removes the King if and only if
every on-board orthogonal neighbor of the King's square is hostile (the
throne, a corner, or a cell occupied by an Attacker); if any such neighbor
is an empty non-special cell or holds a Defender or King, the King's cell
is left unchanged (still holding the King). -/
theorem c1_king_full_surround (s : GameState) (dst kp : Position) (d : Int × Int)
    (_hd : d ∈ directions)
    (ha : s.get_piece dst = some Piece.Attacker)
    (hkr : (kp.row : Int) = (dst.row : Int) + d.1)
    (hkc : (kp.col : Int) = (dst.col : Int) + d.2)
    (hK : s.get_piece kp = some Piece.King) :
    boardGet (s.capture_step dst d).board kp.row kp.col = none ↔
      ∀ d2 ∈ directions,
        0 ≤ (kp.row : Int) + d2.1 → (kp.row : Int) + d2.1 < (s.board_size : Int) →
        0 ≤ (kp.col : Int) + d2.2 → (kp.col : Int) + d2.2 < (s.board_size : Int) →
        hostile_to_king s
          ⟨((kp.row : Int) + d2.1).toNat, ((kp.col : Int) + d2.2).toNat⟩ := by
  obtain ⟨h1, h2⟩ := get_piece_some_bounds s kp Piece.King hK
  have e1 : ((dst.row : Int) + d.1).toNat = kp.row := by omega
  have e2 : ((dst.col : Int) + d.2).toNat = kp.col := by omega
  have hK2 : s.get_piece ⟨kp.row, kp.col⟩ = some Piece.King := hK
  unfold GameState.capture_step
  dsimp only
  rw [if_neg (by omega)]
  rw [e1, e2, hK2]
  dsimp only
  have hcc : s.can_capture dst ⟨kp.row, kp.col⟩ =
      s.is_king_surrounded ⟨kp.row, kp.col⟩ := by
    unfold GameState.can_capture
    rw [ha, hK2]
    dsimp only
    rw [if_neg (by decide), if_pos rfl]
  rw [hcc]
  by_cases hks : s.is_king_surrounded ⟨kp.row, kp.col⟩ = true
  · rw [if_pos hks]
    dsimp only
    constructor
    · intro _
      exact (is_king_surrounded_iff s ⟨kp.row, kp.col⟩).mp hks
    · intro _
      exact boardGet_boardSet_none s.board kp.row kp.col
  · rw [if_neg hks]
    have hbg : boardGet s.board kp.row kp.col = some Piece.King := by
      rw [← get_piece_of_bounds s ⟨kp.row, kp.col⟩ h1 h2]
      exact hK2
    rw [hbg]
    constructor
    · intro h
      exact absurd h (by simp)
    · intro hall
      exact absurd ((is_king_surrounded_iff s ⟨kp.row, kp.col⟩).mpr hall) hks

theorem c1_king_full_surround_witness :
    boardGet ((cap1_demo.capture_step ⟨0, 4⟩ ((0 : Int), (-1 : Int))).board) 0 3 = none :=
  (c1_king_full_surround cap1_demo ⟨0, 4⟩ ⟨0, 3⟩ (0, -1) (by decide) (by decide)
      (by decide) (by decide) (by decide)).mpr (by decide)

/-! ### Claim theorem: sandwich capture (C2) -/

/-- C2: for an orthogonal neighbor `target` of the destination square
holding an opposing non-King piece, the capture test succeeds iff the cell
opposite the target along the mover-to-target line is on the board and is
the throne, a corner (hostile even when empty), or holds a piece hostile
to the target's side; and King and Defender never capture each other. -/
theorem c2_sandwich_capture :
    (∀ (s : GameState) (mt tg : Position) (d : Int × Int) (pa pt : Piece),
      d ∈ directions →
      (tg.row : Int) = (mt.row : Int) + d.1 →
      (tg.col : Int) = (mt.col : Int) + d.2 →
      s.get_piece mt = some pa → s.get_piece tg = some pt →
      ((pt = Piece.Attacker ∧ pa ≠ Piece.Attacker) ∨
        (pt = Piece.Defender ∧ pa = Piece.Attacker)) →
      (s.can_capture mt tg = true ↔
        (0 ≤ (tg.row : Int) + d.1 ∧ (tg.row : Int) + d.1 < (s.board_size : Int) ∧
          0 ≤ (tg.col : Int) + d.2 ∧ (tg.col : Int) + d.2 < (s.board_size : Int)) ∧
        (s.is_throne ⟨((tg.row : Int) + d.1).toNat, ((tg.col : Int) + d.2).toNat⟩ ∨
          s.is_corner ⟨((tg.row : Int) + d.1).toNat, ((tg.col : Int) + d.2).toNat⟩ ∨
          ∃ po, s.get_piece
              ⟨((tg.row : Int) + d.1).toNat, ((tg.col : Int) + d.2).toNat⟩ = some po ∧
            hostile_to pt po))) ∧
    (∀ (s : GameState) (a t : Position),
      s.get_piece a = some Piece.King → s.get_piece t = some Piece.Defender →
      s.can_capture a t = false) ∧
    (∀ (s : GameState) (a t : Position),
      s.get_piece a = some Piece.Defender → s.get_piece t = some Piece.King →
      s.can_capture a t = false) := by
  refine ⟨?_, ?_, ?_⟩
  · intro s mt tg d pa pt hd hrow hcol hpa hpt hopp
    have hptK : pt ≠ Piece.King := by
      rcases hopp with ⟨rfl, _⟩ | ⟨rfl, _⟩ <;> simp
    unfold GameState.can_capture
    rw [hpa, hpt]
    dsimp only
    have hfil : ¬((pa = Piece.Attacker ∧ pt = Piece.Attacker) ∨
        (pa = Piece.Defender ∧ pt = Piece.Defender) ∨
        (pa = Piece.King ∧ pt = Piece.Defender) ∨
        (pa = Piece.Defender ∧ pt = Piece.King)) := by
      rcases hopp with ⟨rfl, h2⟩ | ⟨rfl, rfl⟩ <;>
        rintro (⟨ha, hb⟩ | ⟨ha, hb⟩ | ⟨ha, hb⟩ | ⟨ha, hb⟩) <;> simp_all
    rw [if_neg hfil, if_neg hptK]
    have hdr : (tg.row : Int) - (mt.row : Int) = d.1 := by omega
    have hdc : (tg.col : Int) - (mt.col : Int) = d.2 := by omega
    rw [hdr, hdc]
    by_cases hOB : (tg.row : Int) + d.1 < 0 ∨ (s.board_size : Int) ≤ (tg.row : Int) + d.1
        ∨ (tg.col : Int) + d.2 < 0 ∨ (s.board_size : Int) ≤ (tg.col : Int) + d.2
    · rw [if_pos hOB]
      constructor
      · intro h
        exact absurd h (by simp)
      · rintro ⟨⟨hb1, hb2, hb3, hb4⟩, _⟩
        omega
    · rw [if_neg hOB]
      by_cases hsp : s.is_throne ⟨((tg.row : Int) + d.1).toNat, ((tg.col : Int) + d.2).toNat⟩
          ∨ s.is_corner ⟨((tg.row : Int) + d.1).toNat, ((tg.col : Int) + d.2).toNat⟩
      · rw [if_pos hsp]
        constructor
        · intro _
          refine ⟨⟨by omega, by omega, by omega, by omega⟩, ?_⟩
          rcases hsp with h | h
          · exact Or.inl h
          · exact Or.inr (Or.inl h)
        · intro _
          rfl
      · rw [if_neg hsp]
        rcases hgo : s.get_piece
            ⟨((tg.row : Int) + d.1).toNat, ((tg.col : Int) + d.2).toNat⟩ with _ | po
        · dsimp only
          constructor
          · intro h
            exact absurd h (by simp)
          · rintro ⟨_, hh | hh | ⟨po2, hpo2, _⟩⟩
            · exact absurd (Or.inl hh) hsp
            · exact absurd (Or.inr hh) hsp
            · exact absurd hpo2 (by simp)
        · dsimp only
          constructor
          · intro hmt2
            refine ⟨⟨by omega, by omega, by omega, by omega⟩,
              Or.inr (Or.inr ⟨po, rfl, ?_⟩)⟩
            rcases hopp with ⟨rfl, _⟩ | ⟨rfl, _⟩ <;> cases po <;>
              simp_all [hostile_to]
          · rintro ⟨_, hh | hh | ⟨po2, hpo2, hhost⟩⟩
            · exact absurd (Or.inl hh) hsp
            · exact absurd (Or.inr hh) hsp
            · injection hpo2 with hpo2
              subst hpo2
              rcases hopp with ⟨rfl, _⟩ | ⟨rfl, _⟩ <;> cases po <;>
                simp_all [hostile_to]
  · intro s a t hpa hpt
    unfold GameState.can_capture
    rw [hpa, hpt]
    dsimp only
    rw [if_pos (Or.inr (Or.inr (Or.inl ⟨rfl, rfl⟩)))]
  · intro s a t hpa hpt
    unfold GameState.can_capture
    rw [hpa, hpt]
    dsimp only
    rw [if_pos (Or.inr (Or.inr (Or.inr ⟨rfl, rfl⟩)))]

theorem c2_sandwich_capture_witness :
    cap2_demo.can_capture ⟨2, 2⟩ ⟨2, 3⟩ = true :=
  (c2_sandwich_capture.1 cap2_demo ⟨2, 2⟩ ⟨2, 3⟩ (0, 1) Piece.Attacker Piece.Defender
      (by decide) (by decide) (by decide) (by decide) (by decide)
      (Or.inr ⟨rfl, rfl⟩)).mpr (by decide)

/-! ### Claim theorem: edge-of-board king capture (C10) -/

/-- C10: an off-board direction is skipped by the surround test and so
counts as hostile: for a King on the top edge the test reduces to the
three on-board directions; and in a concrete game an Attacker's legal move
that makes every on-board orthogonal neighbor of the edge King hostile
captures the King and sets AttackersWin. -/
theorem c10_edge_king_capture :
    (∀ (s : GameState) (kp : Position), kp.row = 0 →
      (s.is_king_surrounded kp = true ↔
        ∀ d2 ∈ [((0 : Int), (1 : Int)), (0, -1), (1, 0)],
          0 ≤ (kp.row : Int) + d2.1 → (kp.row : Int) + d2.1 < (s.board_size : Int) →
          0 ≤ (kp.col : Int) + d2.2 → (kp.col : Int) + d2.2 < (s.board_size : Int) →
          hostile_to_king s
            ⟨((kp.row : Int) + d2.1).toNat, ((kp.col : Int) + d2.2).toNat⟩)) ∧
    ((edge_capture_demo.make_move ⟨⟨2, 4⟩, ⟨0, 4⟩⟩).1 = Except.ok () ∧
      (edge_capture_demo.make_move ⟨⟨2, 4⟩, ⟨0, 4⟩⟩).2.result =
        some GameResult.AttackersWin ∧
      (edge_capture_demo.make_move ⟨⟨2, 4⟩, ⟨0, 4⟩⟩).2.king_position = none) := by
  refine ⟨?_, by decide, by decide, by decide⟩
  intro s kp hkr
  rw [is_king_surrounded_iff]
  constructor
  · intro h d2 hd2
    simp only [List.mem_cons, List.not_mem_nil, or_false] at hd2
    rcases hd2 with rfl | rfl | rfl <;> exact h _ (by decide)
  · intro h d2 hd2 h1 h2 h3 h4
    simp only [directions, List.mem_cons, List.not_mem_nil, or_false] at hd2
    rcases hd2 with rfl | rfl | rfl | rfl
    · exact h _ (by decide) h1 h2 h3 h4
    · exact h _ (by decide) h1 h2 h3 h4
    · exact h _ (by decide) h1 h2 h3 h4
    · exact absurd h1 (by rw [hkr]; decide)

theorem c10_edge_king_capture_witness :
    cap1_demo.is_king_surrounded ⟨0, 3⟩ = true :=
  (c10_edge_king_capture.1 cap1_demo ⟨0, 3⟩ rfl).mpr (by decide)

/-! ### Claim theorem: initial setup (C9) -/

/-- C9: new(variant) starts with Attackers to move, counter 0, no Result,
exactly one King at the board's geometric center, the fixed per-variant
Defender and Attacker cells of the layout table, nothing anywhere else
(including out of bounds), and the Attacker cells are mirrored across both
axes. -/
theorem c9_initial_setup (v : Variant) (r c : Nat) :
    (GameState.new v).current_player = Player.Attackers ∧
    (GameState.new v).move_count = 0 ∧
    (GameState.new v).result = none ∧
    (GameState.new v).king_position = some ⟨v.board_size / 2, v.board_size / 2⟩ ∧
    (GameState.new v).get_piece ⟨r, c⟩ = initLayout v r c ∧
    initLayout v (v.board_size / 2) (v.board_size / 2) = some Piece.King ∧
    (initLayout v r c = some Piece.King →
      r = v.board_size / 2 ∧ c = v.board_size / 2) ∧
    (r < v.board_size → c < v.board_size →
      ((initLayout v r c = some Piece.Attacker ↔
          initLayout v (v.board_size - 1 - r) c = some Piece.Attacker) ∧
        (initLayout v r c = some Piece.Attacker ↔
          initLayout v r (v.board_size - 1 - c) = some Piece.Attacker))) := by
  cases v
  · refine ⟨rfl, rfl, rfl, rfl, ?_, by decide, ?_, ?_⟩
    · by_cases hb : r < 11 ∧ c < 11
      · have aux : ∀ r2, r2 < 11 → ∀ c2, c2 < 11 →
            (GameState.new Variant.Copenhagen).get_piece ⟨r2, c2⟩ =
              initLayout Variant.Copenhagen r2 c2 := by decide
        exact aux r hb.1 c hb.2
      · have h1 : (GameState.new Variant.Copenhagen).get_piece ⟨r, c⟩ = none := by
          unfold GameState.get_piece
          exact if_neg hb
        have h2 : initLayout Variant.Copenhagen r c = none := by
          unfold initLayout
          exact if_neg hb
        rw [h1, h2]
    · intro h
      by_cases hb : r < 11 ∧ c < 11
      · have aux : ∀ r2, r2 < 11 → ∀ c2, c2 < 11 →
            initLayout Variant.Copenhagen r2 c2 = some Piece.King →
              r2 = 5 ∧ c2 = 5 := by decide
        exact aux r hb.1 c hb.2 h
      · rw [show initLayout Variant.Copenhagen r c = none from if_neg hb] at h
        exact absurd h (by simp)
    · intro hr hc
      have aux : ∀ r2, r2 < 11 → ∀ c2, c2 < 11 →
          ((initLayout Variant.Copenhagen r2 c2 = some Piece.Attacker ↔
              initLayout Variant.Copenhagen (10 - r2) c2 = some Piece.Attacker) ∧
            (initLayout Variant.Copenhagen r2 c2 = some Piece.Attacker ↔
              initLayout Variant.Copenhagen r2 (10 - c2) = some Piece.Attacker)) := by
        decide
      exact aux r hr c hc
  · refine ⟨rfl, rfl, rfl, rfl, ?_, by decide, ?_, ?_⟩
    · by_cases hb : r < 7 ∧ c < 7
      · have aux : ∀ r2, r2 < 7 → ∀ c2, c2 < 7 →
            (GameState.new Variant.Brandubh).get_piece ⟨r2, c2⟩ =
              initLayout Variant.Brandubh r2 c2 := by decide
        exact aux r hb.1 c hb.2
      · have h1 : (GameState.new Variant.Brandubh).get_piece ⟨r, c⟩ = none := by
          unfold GameState.get_piece
          exact if_neg hb
        have h2 : initLayout Variant.Brandubh r c = none := by
          unfold initLayout
          exact if_neg hb
        rw [h1, h2]
    · intro h
      by_cases hb : r < 7 ∧ c < 7
      · have aux : ∀ r2, r2 < 7 → ∀ c2, c2 < 7 →
            initLayout Variant.Brandubh r2 c2 = some Piece.King →
              r2 = 3 ∧ c2 = 3 := by decide
        exact aux r hb.1 c hb.2 h
      · rw [show initLayout Variant.Brandubh r c = none from if_neg hb] at h
        exact absurd h (by simp)
    · intro hr hc
      have aux : ∀ r2, r2 < 7 → ∀ c2, c2 < 7 →
          ((initLayout Variant.Brandubh r2 c2 = some Piece.Attacker ↔
              initLayout Variant.Brandubh (6 - r2) c2 = some Piece.Attacker) ∧
            (initLayout Variant.Brandubh r2 c2 = some Piece.Attacker ↔
              initLayout Variant.Brandubh r2 (6 - c2) = some Piece.Attacker)) := by
        decide
      exact aux r hr c hc

theorem c9_initial_setup_witness :
    3 = Variant.Brandubh.board_size / 2 ∧ 3 = Variant.Brandubh.board_size / 2 :=
  (c9_initial_setup Variant.Brandubh 3 3).2.2.2.2.2.2.1 (by decide)

/-! ### Invariant preservation (towards C8) -/

theorem set_of_le {α : Type} (l : List α) (i : Nat) (a : α) (h : l.length ≤ i) :
    l.set i a = l := by
  induction l generalizing i with
  | nil => simp
  | cons x xs ih =>
    cases i with
    | zero => simp at h
    | succ j =>
      simp only [List.set]
      rw [ih j (by simpa using h)]

theorem mem_set_cases {α : Type} (l : List α) (i : Nat) (a x : α)
    (h : x ∈ l.set i a) : x = a ∨ x ∈ l := by
  induction l generalizing i with
  | nil => simp at h
  | cons y ys ih =>
    cases i with
    | zero =>
      rcases List.mem_cons.mp h with h1 | h1
      · exact Or.inl h1
      · exact Or.inr (List.mem_cons_of_mem y h1)
    | succ j =>
      rcases List.mem_cons.mp h with h1 | h1
      · exact Or.inr (h1 ▸ List.mem_cons_self y ys)
      · rcases ih j h1 with h2 | h2
        · exact Or.inl h2
        · exact Or.inr (List.mem_cons_of_mem y h2)

theorem getD_mem_of_lt {α : Type} (l : List α) (i : Nat) (d : α)
    (h : i < l.length) : l.getD i d ∈ l := by
  induction l generalizing i with
  | nil => simp at h
  | cons x xs ih =>
    cases i with
    | zero => simp
    | succ j =>
      simp only [List.getD_cons_succ]
      exact List.mem_cons_of_mem x (ih j (by simpa using h))

theorem boardShape_set (b : List (List (Option Piece))) (r c : Nat)
    (v : Option Piece) (h : BoardShape b) : BoardShape (boardSet b r c v) := by
  obtain ⟨hlen, hrows⟩ := h
  by_cases hr : r < b.length
  · refine ⟨by rw [length_boardSet, hlen], ?_⟩
    intro row hrow
    unfold boardSet at hrow
    rcases mem_set_cases _ _ _ _ hrow with h1 | h1
    · subst h1
      rw [List.length_set]
      exact hrows _ (getD_mem_of_lt b r [] hr)
    · exact hrows row h1
  · rw [show boardSet b r c v = b from by
      unfold boardSet; exact set_of_le _ _ _ (by omega)]
    exact ⟨hlen, hrows⟩

theorem shape_row_len (b : List (List (Option Piece))) (i : Nat)
    (h : BoardShape b) (hi : i < MAX_BOARD_SIZE) :
    (b.getD i []).length = MAX_BOARD_SIZE := by
  obtain ⟨hlen, hrows⟩ := h
  exact hrows _ (getD_mem_of_lt b i [] (by omega))

theorem kc_cache_cell (s : GameState) (hkc : KingCoherent s) (a b : Nat)
    (hkp : s.king_position = some ⟨a, b⟩) :
    a < s.board_size ∧ b < s.board_size ∧
      boardGet s.board a b = some Piece.King := by
  obtain ⟨h1, h2⟩ := hkc
  unfold kingPosInBounds at h2
  rw [hkp] at h2
  dsimp only at h2
  exact ⟨h2.1, h2.2, (h1 a h2.1 b h2.2).mpr hkp⟩

theorem stateInv_clear (st : GameState) (R C : Nat) (tp : Piece)
    (hR : R < st.board_size) (hC : C < st.board_size)
    (hbgt : boardGet st.board R C = some tp)
    (h : StateInv st) :
    StateInv { st with
      board := boardSet st.board R C none
      king_position :=
        if tp = Piece.King then none else st.king_position } := by
  obtain ⟨hsh, hle, hkc1, hkc2⟩ := h
  refine ⟨boardShape_set _ _ _ _ hsh, hle, ?_, ?_⟩
  · intro r hr c hc
    dsimp only at hr hc ⊢
    by_cases hrc : r = R ∧ c = C
    · obtain ⟨rfl, rfl⟩ := hrc
      rw [boardGet_boardSet_none]
      constructor
      · intro hcon
        exact absurd hcon (by simp)
      · intro hcon
        by_cases htp : tp = Piece.King
        · rw [if_pos htp] at hcon
          exact absurd hcon (by simp)
        · rw [if_neg htp] at hcon
          obtain ⟨_, _, hcell⟩ := kc_cache_cell st ⟨hkc1, hkc2⟩ r c hcon
          rw [hbgt] at hcell
          injection hcell with hcell
          exact absurd hcell htp
    · have hne : R ≠ r ∨ C ≠ c := by tauto
      rw [boardGet_boardSet_ne _ _ _ _ _ _ hne]
      by_cases htp : tp = Piece.King
      · subst htp
        rw [if_pos rfl]
        constructor
        · intro hK
          have h1 := (hkc1 r hr c hc).mp hK
          have h2 := (hkc1 R hR C hC).mp hbgt
          rw [h1] at h2
          injection h2 with h2
          rw [Position.mk.injEq] at h2
          exact absurd ⟨h2.1, h2.2⟩ hrc
        · intro hcon
          exact absurd hcon (by simp)
      · rw [if_neg htp]
        exact hkc1 r hr c hc
  · unfold kingPosInBounds
    dsimp only
    by_cases htp : tp = Piece.King
    · rw [if_pos htp]
      trivial
    · rw [if_neg htp]
      have h2 := hkc2
      unfold kingPosInBounds at h2
      exact h2

theorem stateInv_capture_step (st : GameState) (p : Position) (d : Int × Int)
    (h : StateInv st) : StateInv (st.capture_step p d) := by
  unfold GameState.capture_step
  dsimp only
  split
  · exact h
  · rename_i hOB
    split
    · exact h
    · rename_i tp hget
      split
      · rename_i hcc
        have hR : ((p.row : Int) + d.1).toNat < st.board_size := by omega
        have hC : ((p.col : Int) + d.2).toNat < st.board_size := by omega
        have hbgt : boardGet st.board ((p.row : Int) + d.1).toNat
            ((p.col : Int) + d.2).toNat = some tp := by
          rw [← get_piece_of_bounds st
            ⟨((p.row : Int) + d.1).toNat, ((p.col : Int) + d.2).toNat⟩ hR hC]
          exact hget
        exact stateInv_clear st _ _ tp hR hC hbgt h
      · exact h

theorem stateInv_check_captures (s : GameState) (p : Position)
    (h : StateInv s) : StateInv (s.check_captures p) := by
  unfold GameState.check_captures
  have aux : ∀ (l : List (Int × Int)) (st : GameState), StateInv st →
      StateInv (l.foldl (fun st d => st.capture_step p d) st) := by
    intro l
    induction l with
    | nil => intro st hst; exact hst
    | cons d l ih =>
      intro st hst
      simp only [List.foldl_cons]
      exact ih _ (stateInv_capture_step st p d hst)
  exact aux directions s h

theorem stateInv_check_game_end (s : GameState) (h : StateInv s) :
    StateInv s.check_game_end := by
  obtain ⟨hsh, hle, hkc1, hkc2⟩ := h
  obtain ⟨hb, hkpos, _, _, hbs, _⟩ := check_game_end_fields s
  refine ⟨?_, ?_, ?_, ?_⟩
  · rw [hb]
    exact hsh
  · rw [hbs]
    exact hle
  · intro r hr c hc
    rw [hbs] at hr hc
    rw [hb, hkpos]
    exact hkc1 r hr c hc
  · unfold kingPosInBounds
    rw [hkpos, hbs]
    have h2 := hkc2
    unfold kingPosInBounds at h2
    exact h2

theorem stateInv_apply_move (s : GameState) (mv : Move) (piece : Piece)
    (h : StateInv s)
    (hsr : mv.src.row < s.board_size) (hsc : mv.src.col < s.board_size)
    (hdr : mv.dst.row < s.board_size) (hdc : mv.dst.col < s.board_size)
    (hgets : boardGet s.board mv.src.row mv.src.col = some piece)
    (hgetd : boardGet s.board mv.dst.row mv.dst.col = none) :
    StateInv (s.apply_move mv piece) := by
  obtain ⟨hsh, hle, hkc1, hkc2⟩ := h
  have hshb1 : BoardShape (boardSet s.board mv.src.row mv.src.col none) :=
    boardShape_set _ _ _ _ hsh
  have hne : mv.src.row ≠ mv.dst.row ∨ mv.src.col ≠ mv.dst.col := by
    by_contra hcon
    push_neg at hcon
    rw [hcon.1, hcon.2] at hgets
    rw [hgets] at hgetd
    exact absurd hgetd (by simp)
  have hb2_dst : boardGet
      (boardSet (boardSet s.board mv.src.row mv.src.col none)
        mv.dst.row mv.dst.col (some piece)) mv.dst.row mv.dst.col = some piece := by
    apply boardGet_boardSet_self
    · rw [hshb1.1]
      omega
    · rw [shape_row_len _ _ hshb1 (by omega)]
      omega
  have hb2_src : boardGet
      (boardSet (boardSet s.board mv.src.row mv.src.col none)
        mv.dst.row mv.dst.col (some piece)) mv.src.row mv.src.col = none := by
    rw [boardGet_boardSet_ne _ _ _ _ _ _ (by tauto)]
    exact boardGet_boardSet_none s.board mv.src.row mv.src.col
  have hb2_other : ∀ r c, ¬(r = mv.src.row ∧ c = mv.src.col) →
      ¬(r = mv.dst.row ∧ c = mv.dst.col) →
      boardGet
        (boardSet (boardSet s.board mv.src.row mv.src.col none)
          mv.dst.row mv.dst.col (some piece)) r c = boardGet s.board r c := by
    intro r c h1 h2
    rw [boardGet_boardSet_ne _ _ _ _ _ _ (by tauto),
      boardGet_boardSet_ne _ _ _ _ _ _ (by tauto)]
  unfold GameState.apply_move
  dsimp only
  refine ⟨boardShape_set _ _ _ _ hshb1, hle, ?_, ?_⟩
  · intro r hr c hc
    dsimp only at hr hc ⊢
    by_cases hd2 : r = mv.dst.row ∧ c = mv.dst.col
    · obtain ⟨rfl, rfl⟩ := hd2
      rw [hb2_dst]
      by_cases hpk : piece = Piece.King
      · subst hpk
        rw [if_pos rfl]
        exact ⟨fun _ => rfl, fun _ => rfl⟩
      · rw [if_neg hpk]
        constructor
        · intro hcon
          injection hcon with hcon
          exact absurd hcon hpk
        · intro hcon
          obtain ⟨_, _, hcell⟩ := kc_cache_cell s ⟨hkc1, hkc2⟩ _ _ hcon
          rw [hgetd] at hcell
          exact absurd hcell (by simp)
    · by_cases hs2 : r = mv.src.row ∧ c = mv.src.col
      · obtain ⟨rfl, rfl⟩ := hs2
        rw [hb2_src]
        by_cases hpk : piece = Piece.King
        · subst hpk
          rw [if_pos rfl]
          constructor
          · intro hcon
            exact absurd hcon (by simp)
          · intro hcon
            injection hcon with hcon
            exact absurd
              ⟨(congrArg Position.row hcon).symm, (congrArg Position.col hcon).symm⟩ hd2
        · rw [if_neg hpk]
          constructor
          · intro hcon
            exact absurd hcon (by simp)
          · intro hcon
            obtain ⟨_, _, hcell⟩ := kc_cache_cell s ⟨hkc1, hkc2⟩ _ _ hcon
            rw [hgets] at hcell
            injection hcell with hcell
            exact absurd hcell hpk
      · rw [hb2_other r c hs2 hd2]
        by_cases hpk : piece = Piece.King
        · subst hpk
          rw [if_pos rfl]
          constructor
          · intro hK
            have h1 := (hkc1 r hr c hc).mp hK
            have h2 := (hkc1 mv.src.row hsr mv.src.col hsc).mp hgets
            rw [h1] at h2
            injection h2 with h2
            rw [Position.mk.injEq] at h2
            exact absurd ⟨h2.1, h2.2⟩ hs2
          · intro hcon
            injection hcon with hcon
            exact absurd
              ⟨(congrArg Position.row hcon).symm, (congrArg Position.col hcon).symm⟩ hd2
        · rw [if_neg hpk]
          exact hkc1 r hr c hc
  · unfold kingPosInBounds
    dsimp only
    by_cases hpk : piece = Piece.King
    · subst hpk
      rw [if_pos rfl]
      exact ⟨hdr, hdc⟩
    · rw [if_neg hpk]
      have h2 := hkc2
      unfold kingPosInBounds at h2
      exact h2

theorem stateInv_make_move (s : GameState) (mv : Move) (h : StateInv s) :
    StateInv (s.make_move mv).2 := by
  by_cases hov : s.is_game_over = true
  · rw [make_move_of_game_over s mv hov]
    exact h
  · rw [Bool.not_eq_true] at hov
    by_cases hmem : mv ∈ s.legal_moves
    · rcases hbg : boardGet s.board mv.src.row mv.src.col with _ | piece
      · rw [make_move_of_legal_none s mv hov hmem hbg]
        exact h
      · rw [make_move_of_legal s mv piece hov hmem hbg]
        dsimp only
        obtain ⟨hres, hsr, hsc, hdr, hdc, hdemp, p, hget, hbel⟩ :=
          legal_move_facts s mv hmem
        have hgetd : boardGet s.board mv.dst.row mv.dst.col = none := by
          rw [← get_piece_of_bounds s mv.dst hdr hdc]
          exact hdemp
        exact stateInv_check_game_end _
          (stateInv_check_captures _ _
            (stateInv_apply_move s mv piece h hsr hsc hdr hdc hbg hgetd))
    · rw [make_move_of_not_mem s mv hov hmem]
      exact h

theorem stateInv_new (v : Variant) : StateInv (GameState.new v) := by
  cases v <;> decide

/-! ### Claim theorem: king-cache coherence (C8) -/

/-- C8: in every state reachable from new(variant) by make_move calls the
king cache is coherent with the grid: at most one in-bounds grid cell
holds a King; when the cached king position is set it points at a King
cell; and when it is cleared no grid cell holds a King — together, the
cache is set iff exactly one King cell exists, and then equals it. -/
theorem c8_king_cache_coherence (s : GameState) (h : Reachable s) :
    KingCoherent s ∧
    (∀ r1 c1 r2 c2, r1 < s.board_size → c1 < s.board_size →
      r2 < s.board_size → c2 < s.board_size →
      boardGet s.board r1 c1 = some Piece.King →
      boardGet s.board r2 c2 = some Piece.King → r1 = r2 ∧ c1 = c2) ∧
    (∀ kp, s.king_position = some kp →
      kp.row < s.board_size ∧ kp.col < s.board_size ∧
        boardGet s.board kp.row kp.col = some Piece.King) ∧
    (s.king_position = none →
      ∀ r c, r < s.board_size → c < s.board_size →
        boardGet s.board r c ≠ some Piece.King) := by
  have hinv : StateInv s := by
    induction h with
    | init v => exact stateInv_new v
    | step s2 mv _ ih => exact stateInv_make_move s2 mv ih
  have hkc := hinv.2.2
  refine ⟨hkc, ?_, ?_, ?_⟩
  · intro r1 c1 r2 c2 h1 h2 h3 h4 hK1 hK2
    have e1 := (hkc.1 r1 h1 c1 h2).mp hK1
    have e2 := (hkc.1 r2 h3 c2 h4).mp hK2
    rw [e1] at e2
    injection e2 with e2
    rw [Position.mk.injEq] at e2
    exact e2
  · intro kp hkp
    exact kc_cache_cell s hkc kp.row kp.col (by rw [hkp])
  · intro hnone r c hr hc hcon
    have hx := (hkc.1 r hr c hc).mp hcon
    rw [hnone] at hx
    exact absurd hx (by simp)

theorem c8_king_cache_coherence_witness :
    Reachable (GameState.new Variant.Copenhagen) ∧
    KingCoherent (GameState.new Variant.Copenhagen) :=
  ⟨Reachable.init Variant.Copenhagen,
    (c8_king_cache_coherence _ (Reachable.init Variant.Copenhagen)).1⟩
